import Mathlib

/-!
# Verification of the `use-state-array` collection manager

A shallow embedding of the hook in `src/index.ts`.  The managed state is a
record holding the comparator, the `keepSorted` flag, the live sequence
`array` and the construction-time snapshot `backupArray`.  JavaScript's
`Array.prototype.sort(compareTo)` is a stable in-place sort ordering by the
sign of the comparator; it is modelled by the stable `List.insertionSort` on
the relation `compareTo a b ≤ 0`.  Where the source relies on the in-place
nature of `sort` (the snapshot passed to `setArray` by `resetArray`, the
array returned by `addItem`/`removeItem` after `setArray` sorted it), the
model updates or reads the corresponding value explicitly.
-/

namespace UseStateArray

variable {D : Type}

/-- JavaScript `array.sort(compareTo)`: a stable sort that orders `a` before
`b` when `compareTo a b` is non-positive.  Comparator results are modelled as
integers. -/
def sortJs (cmp : D → D → Int) (l : List D) : List D :=
  List.insertionSort (fun a b => cmp a b ≤ 0) l

/-- The state owned by the hook: the comparator and `keepSorted` fixed at
construction, the live `array`, and the `backupArray` snapshot. -/
structure StateArray (D : Type) where
  compareTo : D → D → Int
  keepSorted : Bool
  array : List D
  backupArray : List D

/-- Construction: `useState(initialState)` for both the live array and the
backup snapshot; no sorting happens here. -/
def useStateArray (compareTo : D → D → Int) (initialState : List D := [])
    (keepSorted : Bool := true) : StateArray D :=
  { compareTo := compareTo, keepSorted := keepSorted,
    array := initialState, backupArray := initialState }

/-- `setArray`: commits `items`, sorted first when `keepSorted`. -/
def setArray (s : StateArray D) (items : List D) : StateArray D :=
  if s.keepSorted then { s with array := sortJs s.compareTo items }
  else { s with array := items }

/-- `resetArray` passes `backupArray` to `setArray`.  When `keepSorted`, the
in-place `items.sort(compareTo)` inside `setArray` sorts the backup object
itself, so the stored array, the snapshot, and the returned reference all
become the sorted backup. -/
def resetArray (s : StateArray D) : StateArray D × List D :=
  if s.keepSorted then
    let b := sortJs s.compareTo s.backupArray
    ({ s with array := b, backupArray := b }, b)
  else
    ({ s with array := s.backupArray }, s.backupArray)

/-- `Array.isArray(item) ? item : [item]`. -/
def normalizeItems : D ⊕ List D → List D
  | Sum.inl x => [x]
  | Sum.inr xs => xs

/-- `cleanArrayFromItem`: the current array without every element having a
comparator-equal match in the argument; sorted when `keepSorted`. -/
def cleanArrayFromItem (s : StateArray D) (item : D ⊕ List D) : List D :=
  let items := normalizeItems item
  let cleanedArray := s.array.filter
    (fun existing => !(items.any (fun i => s.compareTo existing i == 0)))
  if s.keepSorted then sortJs s.compareTo cleanedArray else cleanedArray

/-- `addItem`: upsert.  The returned snapshot is the very object that
`setArray` sorted in place, so its contents coincide with the committed
array. -/
def addItem (s : StateArray D) (item : D ⊕ List D) : StateArray D × List D :=
  let upsertedArray := cleanArrayFromItem s item ++ normalizeItems item
  let upsertedArray :=
    if s.keepSorted then sortJs s.compareTo upsertedArray else upsertedArray
  let s' := setArray s upsertedArray
  (s', s'.array)

/-- `removeItem`: commits the cleaned array; the returned snapshot is the
object `setArray` sorted in place. -/
def removeItem (s : StateArray D) (item : D ⊕ List D) : StateArray D × List D :=
  let upsertedArray := cleanArrayFromItem s item
  let s' := setArray s upsertedArray
  (s', s'.array)

/-- `areEquals`: the comparator-difference `array - items` is empty. -/
def areEquals (s : StateArray D) (items : List D) : Bool :=
  (cleanArrayFromItem s (Sum.inr items)).length == 0

/-- `Array.prototype.find` used as a boolean: `!!l.find(p)` (and the ternary
`l.find(p) ? _ : _`) coerce the *found element* to a boolean, so a falsy
found element (`0`, `""`, `false`) behaves like "not found".  `truthy`
models JavaScript truthiness of the element values of `D`. -/
def truthyFind (truthy : D → Bool) (p : D → Bool) (l : List D) : Bool :=
  match l.find? p with
  | some found => truthy found
  | none => false

/-- `areEqualsDeep`: equal lengths and mutual deep-equality membership tested
by `!!find(...)` (`lodash.isequal` modelled by decidable equality on `D`,
truthiness of the found element by `truthy`). -/
def areEqualsDeep [DecidableEq D] (truthy : D → Bool) (s : StateArray D)
    (items : List D) : Bool :=
  s.array.length == items.length &&
  (s.array.filter (fun arrayItem =>
      truthyFind truthy (fun item => arrayItem == item) items)).length
    == s.array.length &&
  (items.filter (fun item =>
      truthyFind truthy (fun arrayItem => arrayItem == item) s.array)).length
    == items.length

/-- `findInArray`: first comparator-equal element, `null` modelled as
`none`. -/
def findInArray (s : StateArray D) (item : D) : Option D :=
  s.array.find? (fun arrayItem => s.compareTo item arrayItem == 0)

/-- `toSingleOccurrence`: the `reduce` whose ternary
`acc.find(...) ? acc : acc.concat(item)` skips an element only when the
already-kept comparator-equal element found is also truthy. -/
def toSingleOccurrence (truthy : D → Bool) (s : StateArray D) : List D :=
  s.array.foldl
    (fun acc item =>
      if truthyFind truthy (fun arrayItem => s.compareTo item arrayItem == 0) acc
      then acc
      else acc ++ [item])
    []

/-- One mutating call on the state. -/
inductive Mutator (D : Type) where
  | set (items : List D)
  | add (item : D ⊕ List D)
  | remove (item : D ⊕ List D)
  | reset

/-- The state after one mutating call. -/
def applyMutator (s : StateArray D) : Mutator D → StateArray D
  | Mutator.set items => setArray s items
  | Mutator.add item => (addItem s item).1
  | Mutator.remove item => (removeItem s item).1
  | Mutator.reset => (resetArray s).1

/-- The state after a sequence of mutating calls. -/
def applyMutators (s : StateArray D) (ms : List (Mutator D)) : StateArray D :=
  ms.foldl applyMutator s

/-- The spec's preconditions on the comparator (a strict weak ordering
presented by an integer-valued three-way comparison). -/
structure LawfulCmp (cmp : D → D → Int) : Prop where
  total : ∀ a b, cmp a b ≤ 0 ∨ cmp b a ≤ 0
  le_trans : ∀ a b c, cmp a b ≤ 0 → cmp b c ≤ 0 → cmp a c ≤ 0
  zero_symm : ∀ a b, cmp a b = 0 → cmp b a = 0
  le_antisymm : ∀ a b, cmp a b ≤ 0 → cmp b a ≤ 0 → cmp a b = 0

/-- The subsequence of elements equivalent (both ways of `r`) to a pivot. -/
def classFilter {α : Type} (r : α → α → Prop) [DecidableRel r] (c : α)
    (l : List α) : List α :=
  l.filter (fun b => decide (r c b) && decide (r b c))

/-- Specification-side reference for `toSingleOccurrence`, following §4.8 of
the spec: keep, for each group of comparator-equal elements, only the first
one encountered in sequence order — keep the head, drop every later element
equivalent to it, recurse. -/
def specKeepFirst (eqv : D → D → Bool) (l : List D) : List D :=
  match l with
  | [] => []
  | a :: t => a :: specKeepFirst eqv (t.filter fun b => !(eqv a b))
termination_by l.length
decreasing_by
  simp only [List.length_cons]
  exact Nat.lt_succ_of_le (List.length_filter_le _ _)

theorem LawfulCmp.zero_refl {cmp : D → D → Int} (h : LawfulCmp cmp) (a : D) :
    cmp a a = 0 :=
  h.le_antisymm a a ((h.total a a).elim id id) ((h.total a a).elim id id)

/-!
## Stable sorting

`insertionSort` is a stable sort; stability is captured by the equivalence
class filters: sorting never changes the subsequence of elements equivalent
to a fixed pivot.  Together with sortedness this characterises the result
uniquely, which gives the algebraic laws of repeated sorting that the
in-place `sort` calls of the source require.
-/

section StableSort

variable {α : Type} (r : α → α → Prop) [DecidableRel r]

theorem classFilter_cons (c a : α) (l : List α) :
    classFilter r c (a :: l) =
      if r c a ∧ r a c then a :: classFilter r c l else classFilter r c l := by
  by_cases h1 : r c a <;> by_cases h2 : r a c <;>
    simp [classFilter, List.filter_cons, h1, h2]

theorem classFilter_append (c : α) (l₁ l₂ : List α) :
    classFilter r c (l₁ ++ l₂) = classFilter r c l₁ ++ classFilter r c l₂ :=
  List.filter_append _ _

theorem classFilter_filter (c : α) (q : α → Bool) (l : List α) :
    classFilter r c (l.filter q) = (classFilter r c l).filter q := by
  simp only [classFilter, List.filter_filter]
  exact List.filter_congr fun x _ => Bool.and_comm _ _

theorem classFilter_pairwise
    (htr : ∀ a b c, r a b → r b c → r a c) (c : α) (l : List α) :
    (classFilter r c l).Pairwise r := by
  apply List.pairwise_of_forall_mem_list
  intro x hx y hy
  have hx' := List.of_mem_filter hx
  have hy' := List.of_mem_filter hy
  simp only [Bool.and_eq_true, decide_eq_true_eq] at hx' hy'
  exact htr x c y hx'.2 hy'.1

/-- Stability of `insertionSort`, phrased through class filters. -/
theorem classFilter_insertionSort
    (htr : ∀ a b c, r a b → r b c → r a c) (c : α) (l : List α) :
    classFilter r c (List.insertionSort r l) = classFilter r c l := by
  have hsub : List.Sublist (classFilter r c l) (List.insertionSort r l) :=
    List.sublist_insertionSort (classFilter_pairwise r htr c l)
      (List.filter_sublist l)
  have hself : (classFilter r c l).filter
      (fun b => decide (r c b) && decide (r b c)) = classFilter r c l := by
    apply List.filter_eq_self.mpr
    intro a ha
    simp only [classFilter] at ha
    exact (List.mem_filter.mp ha).2
  have hsub2 : List.Sublist (classFilter r c l)
      (classFilter r c (List.insertionSort r l)) := by
    have h2 := hsub.filter (fun b => decide (r c b) && decide (r b c))
    rwa [hself] at h2
  have hperm : List.Perm (classFilter r c (List.insertionSort r l))
      (classFilter r c l) :=
    (List.perm_insertionSort r l).filter _
  exact (hsub2.eq_of_length hperm.length_eq.symm).symm

/-- Two sorted lists with the same class subsequences are equal: a stable
sorted permutation is unique. -/
theorem eq_of_sorted_of_classFilter_eq (htot : ∀ a b, r a b ∨ r b a) :
    ∀ l₁ l₂ : List α, l₁.Sorted r → l₂.Sorted r →
      (∀ c, classFilter r c l₁ = classFilter r c l₂) → l₁ = l₂ := by
  have hr : ∀ a, r a a := fun a => (htot a a).elim id id
  intro l₁
  induction l₁ with
  | nil =>
    intro l₂ _ _ hcf
    cases l₂ with
    | nil => rfl
    | cons b t₂ =>
      exfalso
      have hb := (hcf b).symm
      rw [classFilter_cons, if_pos ⟨hr b, hr b⟩] at hb
      simp [classFilter] at hb
  | cons a t₁ ih =>
    intro l₂ h₁ h₂ hcf
    cases l₂ with
    | nil =>
      exfalso
      have ha := hcf a
      rw [classFilter_cons, if_pos ⟨hr a, hr a⟩] at ha
      simp [classFilter] at ha
    | cons b t₂ =>
      have hab : a = b := by
        by_cases hclass : r a b ∧ r b a
        · have ha := hcf a
          rw [classFilter_cons, if_pos ⟨hr a, hr a⟩,
            classFilter_cons, if_pos hclass] at ha
          exact (List.cons_eq_cons.mp ha).1
        · exfalso
          have ha := hcf a
          rw [classFilter_cons, if_pos ⟨hr a, hr a⟩,
            classFilter_cons, if_neg hclass] at ha
          have hamem : a ∈ t₂ :=
            List.mem_of_mem_filter (l := t₂) (ha ▸ List.mem_cons_self a _)
          have hba : r b a := List.rel_of_sorted_cons h₂ a hamem
          have hnab : ¬ r a b := fun h => hclass ⟨h, hba⟩
          have hb := hcf b
          rw [classFilter_cons, if_neg (fun h => hnab h.2),
            classFilter_cons, if_pos ⟨hr b, hr b⟩] at hb
          have hbmem : b ∈ t₁ :=
            List.mem_of_mem_filter (l := t₁) (hb ▸ List.mem_cons_self b _)
          exact hnab (List.rel_of_sorted_cons h₁ b hbmem)
      subst hab
      have htails : ∀ c, classFilter r c t₁ = classFilter r c t₂ := by
        intro c
        have hc := hcf c
        rw [classFilter_cons, classFilter_cons] at hc
        by_cases hcl : r c a ∧ r a c
        · rw [if_pos hcl, if_pos hcl] at hc
          exact (List.cons_eq_cons.mp hc).2
        · rwa [if_neg hcl, if_neg hcl] at hc
      exact congrArg (a :: ·) (ih t₂ h₁.of_cons h₂.of_cons htails)

theorem sorted_insertionSort_of
    (htot : ∀ a b, r a b ∨ r b a) (htr : ∀ a b c, r a b → r b c → r a c)
    (l : List α) : (List.insertionSort r l).Sorted r := by
  letI : IsTotal α r := ⟨htot⟩
  letI : IsTrans α r := ⟨htr⟩
  exact List.sorted_insertionSort r l

theorem insertionSort_idem
    (htot : ∀ a b, r a b ∨ r b a) (htr : ∀ a b c, r a b → r b c → r a c)
    (l : List α) :
    List.insertionSort r (List.insertionSort r l) = List.insertionSort r l :=
  (sorted_insertionSort_of r htot htr l).insertionSort_eq

/-- Pre-sorting a prefix does not change the final stable sort. -/
theorem insertionSort_sort_append
    (htot : ∀ a b, r a b ∨ r b a) (htr : ∀ a b c, r a b → r b c → r a c)
    (l₁ l₂ : List α) :
    List.insertionSort r (List.insertionSort r l₁ ++ l₂) =
      List.insertionSort r (l₁ ++ l₂) := by
  apply eq_of_sorted_of_classFilter_eq r htot _ _
    (sorted_insertionSort_of r htot htr _) (sorted_insertionSort_of r htot htr _)
  intro c
  rw [classFilter_insertionSort r htr, classFilter_insertionSort r htr,
    classFilter_append, classFilter_append, classFilter_insertionSort r htr]

/-- Filtering commutes with a stable sort. -/
theorem filter_insertionSort
    (htot : ∀ a b, r a b ∨ r b a) (htr : ∀ a b c, r a b → r b c → r a c)
    (q : α → Bool) (l : List α) :
    (List.insertionSort r l).filter q = List.insertionSort r (l.filter q) := by
  apply eq_of_sorted_of_classFilter_eq r htot _ _
    ((sorted_insertionSort_of r htot htr l).filter q)
    (sorted_insertionSort_of r htot htr _)
  intro c
  rw [classFilter_filter, classFilter_insertionSort r htr,
    classFilter_insertionSort r htr, classFilter_filter]

end StableSort

/-! ## Laws of the JavaScript sort for a lawful comparator -/

section SortJsLemmas

variable {D : Type} {cmp : D → D → Int}

theorem sortJs_perm (cmp : D → D → Int) (l : List D) :
    List.Perm (sortJs cmp l) l :=
  List.perm_insertionSort _ l

theorem sortJs_sorted (h : LawfulCmp cmp) (l : List D) :
    (sortJs cmp l).Sorted (fun a b => cmp a b ≤ 0) :=
  sorted_insertionSort_of _ h.total h.le_trans l

theorem sortJs_idem (h : LawfulCmp cmp) (l : List D) :
    sortJs cmp (sortJs cmp l) = sortJs cmp l :=
  insertionSort_idem _ h.total h.le_trans l

theorem sortJs_sort_append (h : LawfulCmp cmp) (l₁ l₂ : List D) :
    sortJs cmp (sortJs cmp l₁ ++ l₂) = sortJs cmp (l₁ ++ l₂) :=
  insertionSort_sort_append _ h.total h.le_trans l₁ l₂

theorem filter_sortJs (h : LawfulCmp cmp) (q : D → Bool) (l : List D) :
    (sortJs cmp l).filter q = sortJs cmp (l.filter q) :=
  filter_insertionSort _ h.total h.le_trans q l

end SortJsLemmas

/-! ## Field bookkeeping across operations -/

section FieldLemmas

variable {D : Type}

theorem setArray_compareTo (s : StateArray D) (items : List D) :
    (setArray s items).compareTo = s.compareTo := by
  unfold setArray; split <;> rfl

theorem setArray_keepSorted (s : StateArray D) (items : List D) :
    (setArray s items).keepSorted = s.keepSorted := by
  unfold setArray; split <;> rfl

theorem setArray_backupArray (s : StateArray D) (items : List D) :
    (setArray s items).backupArray = s.backupArray := by
  unfold setArray; split <;> rfl

theorem setArray_array (s : StateArray D) (items : List D) :
    (setArray s items).array =
      if s.keepSorted then sortJs s.compareTo items else items := by
  unfold setArray; split <;> simp_all

theorem addItem_fst (s : StateArray D) (item : D ⊕ List D) :
    (addItem s item).1 =
      setArray s (if s.keepSorted
        then sortJs s.compareTo (cleanArrayFromItem s item ++ normalizeItems item)
        else cleanArrayFromItem s item ++ normalizeItems item) := by
  unfold addItem; split <;> simp_all

theorem removeItem_fst (s : StateArray D) (item : D ⊕ List D) :
    (removeItem s item).1 = setArray s (cleanArrayFromItem s item) := rfl

theorem resetArray_backupArray (s : StateArray D) :
    (resetArray s).1.backupArray =
      if s.keepSorted then sortJs s.compareTo s.backupArray else s.backupArray := by
  unfold resetArray; split <;> simp_all

theorem resetArray_array (s : StateArray D) :
    (resetArray s).1.array =
      if s.keepSorted then sortJs s.compareTo s.backupArray else s.backupArray := by
  unfold resetArray; split <;> simp_all

theorem applyMutator_keepSorted (s : StateArray D) (m : Mutator D) :
    (applyMutator s m).keepSorted = s.keepSorted := by
  cases m <;>
    simp only [applyMutator, addItem_fst, removeItem_fst, setArray_keepSorted]
  unfold resetArray; split <;> rfl

theorem applyMutator_compareTo (s : StateArray D) (m : Mutator D) :
    (applyMutator s m).compareTo = s.compareTo := by
  cases m <;>
    simp only [applyMutator, addItem_fst, removeItem_fst, setArray_compareTo]
  unfold resetArray; split <;> rfl

theorem applyMutators_compareTo (ms : List (Mutator D)) :
    ∀ s : StateArray D, (applyMutators s ms).compareTo = s.compareTo := by
  induction ms with
  | nil => intro s; rfl
  | cons m ms ih =>
    intro s
    show (applyMutators (applyMutator s m) ms).compareTo = _
    rw [ih, applyMutator_compareTo]

theorem applyMutator_backupArray_perm (s : StateArray D) (m : Mutator D) :
    List.Perm (applyMutator s m).backupArray s.backupArray := by
  cases m <;>
    simp only [applyMutator, addItem_fst, removeItem_fst, setArray_backupArray,
      resetArray_backupArray]
  · exact List.Perm.refl _
  · exact List.Perm.refl _
  · exact List.Perm.refl _
  · split
    · exact sortJs_perm _ _
    · exact List.Perm.refl _

theorem applyMutator_backupArray_of_not_sorted (s : StateArray D) (m : Mutator D)
    (h : s.keepSorted = false) :
    (applyMutator s m).backupArray = s.backupArray := by
  cases m <;>
    simp only [applyMutator, addItem_fst, removeItem_fst, setArray_backupArray,
      resetArray_backupArray, h, if_false, Bool.false_eq_true]

theorem applyMutator_backupArray_of_not_reset (s : StateArray D) (m : Mutator D)
    (h : m ≠ Mutator.reset) :
    (applyMutator s m).backupArray = s.backupArray := by
  cases m <;>
    simp only [applyMutator, addItem_fst, removeItem_fst, setArray_backupArray]
  exact absurd rfl h

theorem applyMutators_keepSorted (ms : List (Mutator D)) :
    ∀ s : StateArray D, (applyMutators s ms).keepSorted = s.keepSorted := by
  induction ms with
  | nil => intro s; rfl
  | cons m ms ih =>
    intro s
    show (applyMutators (applyMutator s m) ms).keepSorted = _
    rw [ih, applyMutator_keepSorted]

theorem applyMutators_backupArray_perm (ms : List (Mutator D)) :
    ∀ s : StateArray D, List.Perm (applyMutators s ms).backupArray s.backupArray := by
  induction ms with
  | nil => intro s; exact List.Perm.refl _
  | cons m ms ih =>
    intro s
    exact (ih (applyMutator s m)).trans (applyMutator_backupArray_perm s m)

theorem applyMutators_backupArray_of_not_sorted (ms : List (Mutator D)) :
    ∀ s : StateArray D, s.keepSorted = false →
      (applyMutators s ms).backupArray = s.backupArray := by
  induction ms with
  | nil => intro s _; rfl
  | cons m ms ih =>
    intro s h
    show (applyMutators (applyMutator s m) ms).backupArray = _
    rw [ih _ (by rw [applyMutator_keepSorted]; exact h),
      applyMutator_backupArray_of_not_sorted s m h]

/-- For a lawful comparator, the sort of the snapshot is an invariant of the
whole operation set: the only mutation of the snapshot is `resetArray`'s
in-place sort, and sorting is idempotent. -/
theorem applyMutators_backupArray_sort (cmp : D → D → Int) (h : LawfulCmp cmp)
    (ms : List (Mutator D)) :
    ∀ s : StateArray D, s.compareTo = cmp →
      sortJs cmp (applyMutators s ms).backupArray =
        sortJs cmp s.backupArray := by
  induction ms with
  | nil => intro s _; rfl
  | cons m ms ih =>
    intro s hsc
    show sortJs cmp (applyMutators (applyMutator s m) ms).backupArray = _
    rw [ih (applyMutator s m) (by rw [applyMutator_compareTo]; exact hsc)]
    cases m <;>
      simp only [applyMutator, addItem_fst, removeItem_fst,
        setArray_backupArray, resetArray_backupArray]
    rw [hsc]
    split
    · exact sortJs_idem h _
    · rfl

theorem applyMutators_backupArray_of_not_reset (ms : List (Mutator D)) :
    ∀ s : StateArray D, Mutator.reset ∉ ms →
      (applyMutators s ms).backupArray = s.backupArray := by
  induction ms with
  | nil => intro s _; rfl
  | cons m ms ih =>
    intro s h
    show (applyMutators (applyMutator s m) ms).backupArray = _
    rw [ih _ (fun hm => h (List.mem_cons_of_mem m hm)),
      applyMutator_backupArray_of_not_reset s m
        (fun he => h (he ▸ List.mem_cons_self m ms))]

theorem cleanArrayFromItem_eq (s : StateArray D) (item : D ⊕ List D) :
    cleanArrayFromItem s item =
      if s.keepSorted
      then sortJs s.compareTo (s.array.filter
        (fun existing => !((normalizeItems item).any fun i => s.compareTo existing i == 0)))
      else s.array.filter
        (fun existing => !((normalizeItems item).any fun i => s.compareTo existing i == 0)) :=
  rfl

theorem addItem_snd (s : StateArray D) (item : D ⊕ List D) :
    (addItem s item).2 = (addItem s item).1.array := rfl

theorem removeItem_snd (s : StateArray D) (item : D ⊕ List D) :
    (removeItem s item).2 = (removeItem s item).1.array := rfl

/-- The numeric ascending comparator used in the repository's tests is a
lawful comparator. -/
theorem lawfulCmp_sub : LawfulCmp (fun a b : Int => a - b) := by
  refine ⟨?_, ?_, ?_, ?_⟩ <;> intros <;> omega

/-- For a lawful comparator the three sort passes inside `addItem` collapse:
the committed array is the (sorted, when `keepSorted`) concatenation of the
retained elements with the incoming ones. -/
theorem addItem_array_norm (s : StateArray D) (item : D ⊕ List D)
    (h : LawfulCmp s.compareTo) :
    (addItem s item).1.array =
      if s.keepSorted
      then sortJs s.compareTo
        (s.array.filter
          (fun e => !((normalizeItems item).any fun i => s.compareTo e i == 0))
          ++ normalizeItems item)
      else s.array.filter
          (fun e => !((normalizeItems item).any fun i => s.compareTo e i == 0))
          ++ normalizeItems item := by
  rw [addItem_fst, setArray_array, cleanArrayFromItem_eq]
  cases hks : s.keepSorted
  · simp
  · simp only [if_true]
    rw [sortJs_sort_append h, sortJs_idem h]

/-- When every element of `l` is truthy, the `!!find` test is plain
existence. -/
theorem truthyFind_eq_any (truthy : D → Bool) (p : D → Bool) (l : List D)
    (h : ∀ a ∈ l, truthy a = true) :
    truthyFind truthy p l = l.any p := by
  unfold truthyFind
  cases hf : l.find? p with
  | none =>
    have := List.find?_eq_none.mp hf
    simp only [List.any_eq_false.mpr this]
  | some b =>
    have hb := List.find?_some hf
    have hm := List.mem_of_find?_eq_some hf
    simp only [h b hm]
    exact (List.any_eq_true.mpr ⟨b, hm, hb⟩).symm

/-- For a deep-equality search the found element is the probe itself, so the
`!!find` test is membership of a truthy probe. -/
theorem truthyFind_beq_iff [DecidableEq D] (truthy : D → Bool) (a : D)
    (l : List D) :
    truthyFind truthy (fun i => a == i) l = true ↔ a ∈ l ∧ truthy a = true := by
  unfold truthyFind
  cases hf : l.find? (fun i => a == i) with
  | none =>
    simp only [Bool.false_eq_true, false_iff]
    rintro ⟨hm, -⟩
    exact absurd (by simp : ((fun i => a == i) a) = true)
      (List.find?_eq_none.mp hf a hm)
  | some b =>
    have hb : a = b := by simpa using List.find?_some hf
    subst hb
    simp only [iff_def]
    exact ⟨fun ht => ⟨List.mem_of_find?_eq_some hf, ht⟩, fun h => h.2⟩

/-- The mirror orientation of `truthyFind_beq_iff`, for the search
`isEqual(arrayItem, item)` whose probe is the second argument. -/
theorem truthyFind_beq_iff' [DecidableEq D] (truthy : D → Bool) (a : D)
    (l : List D) :
    truthyFind truthy (fun i => i == a) l = true ↔ a ∈ l ∧ truthy a = true := by
  have hfun : (fun i => i == a) = fun i => a == i := by
    funext i
    by_cases h : i = a
    · simp [h]
    · simp [h, Ne.symm h]
  rw [hfun]
  exact truthyFind_beq_iff truthy a l

theorem specKeepFirst_nil (eqv : D → D → Bool) : specKeepFirst eqv [] = [] := by
  rw [specKeepFirst]

theorem specKeepFirst_cons (eqv : D → D → Bool) (a : D) (t : List D) :
    specKeepFirst eqv (a :: t) =
      a :: specKeepFirst eqv (t.filter fun b => !(eqv a b)) := by
  rw [specKeepFirst]

/-- The `foldl` of `toSingleOccurrence`, run from an arbitrary truthy
accumulator over truthy elements, appends exactly the first occurrences of
the elements not already matched by the accumulator. -/
theorem toSingleOccurrence_foldl (truthy : D → Bool) (cmp : D → D → Int)
    (hsymm : ∀ a b, cmp a b = 0 → cmp b a = 0) :
    ∀ l acc : List D, (∀ a ∈ l, truthy a = true) → (∀ a ∈ acc, truthy a = true) →
      l.foldl (fun acc item =>
        if truthyFind truthy (fun arrayItem => cmp item arrayItem == 0) acc
        then acc
        else acc ++ [item]) acc =
      acc ++ specKeepFirst (fun a b => cmp a b == 0)
        (l.filter fun y => !(acc.any fun a => cmp y a == 0)) := by
  intro l
  induction l with
  | nil =>
    intro acc _ _
    simp [specKeepFirst]
  | cons x l ih =>
    intro acc hl hacc
    have hl' : ∀ a ∈ l, truthy a = true :=
      fun a ha => hl a (List.mem_cons_of_mem x ha)
    rw [List.foldl_cons, truthyFind_eq_any truthy _ acc hacc]
    by_cases hx : (acc.any fun a => cmp x a == 0) = true
    · rw [if_pos hx]
      rw [ih acc hl' hacc]
      have hfx : ((x :: l).filter fun y => !(acc.any fun a => cmp y a == 0)) =
          l.filter fun y => !(acc.any fun a => cmp y a == 0) := by
        rw [List.filter_cons]
        simp [hx]
      rw [hfx]
    · rw [if_neg hx]
      have haccx : ∀ a ∈ acc ++ [x], truthy a = true := by
        intro a ha
        rcases List.mem_append.mp ha with h1 | h1
        · exact hacc a h1
        · rw [List.mem_singleton] at h1
          exact h1 ▸ hl x (List.mem_cons_self x l)
      rw [ih (acc ++ [x]) hl' haccx]
      have hx' : (acc.any fun a => cmp x a == 0) = false :=
        Bool.not_eq_true _ ▸ Bool.of_not_eq_true hx
      have hfx : ((x :: l).filter fun y => !(acc.any fun a => cmp y a == 0)) =
          x :: l.filter fun y => !(acc.any fun a => cmp y a == 0) := by
        rw [List.filter_cons]
        simp [hx']
      rw [hfx]
      have hpred : ∀ y, (((acc ++ [x]).any fun a => cmp y a == 0)) =
          ((acc.any fun a => cmp y a == 0) || (cmp y x == 0)) := by
        intro y
        simp [List.any_append]
      have hswap : ∀ y, ((cmp y x == 0) : Bool) = ((cmp x y == 0) : Bool) := by
        intro y
        by_cases h0 : cmp y x = 0
        · simp [h0, hsymm y x h0]
        · have h0' : cmp x y ≠ 0 := fun hc => h0 (hsymm x y hc)
          simp [h0, h0']
      have hfilters :
          (l.filter fun y => !((acc ++ [x]).any fun a => cmp y a == 0)) =
          ((l.filter fun y => !(acc.any fun a => cmp y a == 0)).filter
            fun b => !(cmp x b == 0)) := by
        rw [List.filter_filter]
        apply List.filter_congr
        intro y _
        rw [hpred y, hswap y]
        cases hb : (cmp x y == 0) <;>
          cases hc : (acc.any fun a => cmp y a == 0) <;> simp [hb, hc]
      rw [hfilters, specKeepFirst_cons]
      simp

end FieldLemmas

/-! ## The claims -/

section Claims

variable {D : Type}

/-- C1 counterexample: with `keepSorted = true` and `initialState = [3, 1]`,
`resetArray` (called right after construction, i.e. after the empty sequence
of prior calls) commits `[1, 3]`, which is not element-for-element identical
to the supplied `initialState = [3, 1]`; moreover the snapshot itself is
mutated (sorted in place) to `[1, 3]`. -/
theorem c1_counterexample :
    ((resetArray (useStateArray (fun a b : Int => a - b) [3, 1] true)).1).array
        = [1, 3] ∧
    ((resetArray (useStateArray (fun a b : Int => a - b) [3, 1] true)).1).backupArray
        = [1, 3] ∧
    ([1, 3] : List Int) ≠ [3, 1] :=
  ⟨rfl, rfl, by decide⟩

/-- C1 (amended): after any prior sequence of `setArray`/`addItem`/
`removeItem`/`resetArray` calls, `resetArray` restores the stored sequence to
a permutation of the originally supplied `initialState`; the snapshot is
untouched by every operation other than `resetArray`; when
`keepSorted = false` the snapshot is never mutated at all and `resetArray`
restores the stored sequence element-for-element identical to
`initialState`; and when `keepSorted = true`, for a lawful comparator,
`resetArray` restores exactly the stable sort of `initialState`. -/
theorem c1_resetArray_restores_upto_sort (cmp : D → D → Int) (init : List D)
    (ks : Bool) (ms : List (Mutator D)) :
    List.Perm
      ((resetArray (applyMutators (useStateArray cmp init ks) ms)).1).array init ∧
    (Mutator.reset ∉ ms →
      (applyMutators (useStateArray cmp init ks) ms).backupArray = init) ∧
    (ks = false →
      ((resetArray (applyMutators (useStateArray cmp init ks) ms)).1).array = init ∧
      (applyMutators (useStateArray cmp init ks) ms).backupArray = init) ∧
    (ks = true → LawfulCmp cmp →
      ((resetArray (applyMutators (useStateArray cmp init ks) ms)).1).array =
        sortJs cmp init) := by
  have hbp : List.Perm
      (applyMutators (useStateArray cmp init ks) ms).backupArray init :=
    applyMutators_backupArray_perm ms _
  refine ⟨?_, ?_, ?_, ?_⟩
  · rw [resetArray_array]
    split
    · exact (sortJs_perm _ _).trans hbp
    · exact hbp
  · intro h
    exact applyMutators_backupArray_of_not_reset ms _ h
  · intro h
    subst h
    have hb : (applyMutators (useStateArray cmp init false) ms).backupArray = init :=
      applyMutators_backupArray_of_not_sorted ms (useStateArray cmp init false) rfl
    refine ⟨?_, hb⟩
    rw [resetArray_array, applyMutators_keepSorted ms]
    simpa using hb
  · intro hkst hlaw
    subst hkst
    rw [resetArray_array, applyMutators_keepSorted ms,
      if_pos (show (useStateArray cmp init true).keepSorted = true from rfl),
      applyMutators_compareTo ms]
    exact applyMutators_backupArray_sort cmp hlaw ms
      (useStateArray cmp init true) rfl

/-- C1 witness: a concrete run of the amended statement's sorted case:
`keepSorted = true`, `initialState = [3, 1]`, one prior `addItem 2`, and
`resetArray` restores exactly the stable sort of `[3, 1]`. -/
theorem c1_witness :
    ((resetArray (applyMutators
      (useStateArray (fun a b : Int => a - b) [3, 1] true)
      [Mutator.add (Sum.inl 2)])).1).array =
      sortJs (fun a b : Int => a - b) [3, 1] :=
  (c1_resetArray_restores_upto_sort (fun a b : Int => a - b) [3, 1] true
    [Mutator.add (Sum.inl 2)]).2.2.2 rfl lawfulCmp_sub

/-- C2 counterexample: constructing with the numeric ascending comparator,
`initialState = [3, 1]` and `keepSorted = true` leaves `array = [3, 1]`:
construction stores `initialState` in `useState` without sorting. -/
theorem c2_counterexample :
    (useStateArray (fun a b : Int => a - b) [3, 1] true).array = [3, 1] ∧
    ([3, 1] : List Int) ≠ [1, 3] :=
  ⟨rfl, by decide⟩

/-- C2 (amended): immediately after construction the live sequence equals
`initialState` exactly as given, regardless of `keepSorted` (no sorting
happens at construction), and the snapshot also equals `initialState`; in
particular the numeric scenario yields `array = [3, 1]`, not `[1, 3]`. -/
theorem c2_array_after_construction (cmp : D → D → Int) (init : List D)
    (ks : Bool) :
    (useStateArray cmp init ks).array = init ∧
    (useStateArray cmp init ks).backupArray = init ∧
    (useStateArray (fun a b : Int => a - b) [3, 1] true).array = [3, 1] :=
  ⟨rfl, rfl, rfl⟩

/-- C3 counterexample: with `keepSorted = true`, current sequence `[1, 3]`
and `addItem 2`, the pre-sort concatenation `retained ++ incoming` is
`[1, 3, 2]`, but the call returns `[1, 2, 3]`: the in-place sorts run on the
returned object before `addItem` returns. -/
theorem c3_counterexample :
    (addItem (useStateArray (fun a b : Int => a - b) [1, 3] true) (Sum.inl 2)).2
        = [1, 2, 3] ∧
    ([1, 2, 3] : List Int) ≠ [1, 3, 2] :=
  ⟨rfl, by decide⟩

/-- C3 (amended): `addItem`'s return value mirrors the committed stored
state: it always equals the array stored by the call, which for a lawful
comparator and `keepSorted = true` is the fully sorted
`sort (retained ++ incoming)` (not the pre-sort concatenation), and for
`keepSorted = false` is the plain concatenation `retained ++ incoming`. -/
theorem c3_addItem_returns_committed (s : StateArray D) (item : D ⊕ List D)
    (h : LawfulCmp s.compareTo) :
    (addItem s item).2 = (addItem s item).1.array ∧
    (s.keepSorted = true →
      (addItem s item).2 = sortJs s.compareTo
        (s.array.filter
          (fun e => !((normalizeItems item).any fun i => s.compareTo e i == 0))
          ++ normalizeItems item)) ∧
    (s.keepSorted = false →
      (addItem s item).2 =
        s.array.filter
          (fun e => !((normalizeItems item).any fun i => s.compareTo e i == 0))
          ++ normalizeItems item) := by
  refine ⟨rfl, ?_, ?_⟩
  · intro hks
    rw [addItem_snd, addItem_fst, setArray_array, cleanArrayFromItem_eq, hks]
    simp only [if_true]
    rw [sortJs_sort_append h, sortJs_idem h]
  · intro hks
    rw [addItem_snd, addItem_fst, setArray_array, cleanArrayFromItem_eq, hks]
    simp

/-- C3 witness: the amended statement applied to the counterexample state. -/
theorem c3_witness :
    (addItem (useStateArray (fun a b : Int => a - b) [1, 3] true) (Sum.inl 2)).2 =
      sortJs (fun a b : Int => a - b)
        (([1, 3] : List Int).filter
          (fun e => !((normalizeItems (Sum.inl 2)).any fun i => (e - i : Int) == 0))
          ++ normalizeItems (Sum.inl 2)) :=
  (c3_addItem_returns_committed
    (useStateArray (fun a b : Int => a - b) [1, 3] true) (Sum.inl 2)
    lawfulCmp_sub).2.1 rfl

/-- C4: every exposed operation is a total function: for every state (hence
every current sequence, including the empty and singleton ones) and every
argument, each of the eight operations evaluates to a result.  Totality is
witnessed by the fact that each operation is a terminating function of the
embedding, accepted by Lean's termination checker. -/
theorem c4_operations_total [DecidableEq D] (truthy : D → Bool)
    (s : StateArray D) (items : List D) (x y : D ⊕ List D) (d : D) :
    (∃ t, setArray s items = t) ∧ (∃ p, addItem s x = p) ∧
    (∃ p, removeItem s y = p) ∧ (∃ p, resetArray s = p) ∧
    (∃ b, areEquals s items = b) ∧ (∃ b, areEqualsDeep truthy s items = b) ∧
    (∃ o, findInArray s d = o) ∧ (∃ l, toSingleOccurrence truthy s = l) :=
  ⟨⟨_, rfl⟩, ⟨_, rfl⟩, ⟨_, rfl⟩, ⟨_, rfl⟩, ⟨_, rfl⟩, ⟨_, rfl⟩, ⟨_, rfl⟩, ⟨_, rfl⟩⟩

/-- C5: for a lawful comparator, `addItem` commits via `setArray` exactly the
sequence `retained ++ incoming`, where `retained` is the current array
filtered to the elements with no comparator-equal match in `incoming` (in
their current order) and `incoming` is the caller-given normalized argument
(kept wholesale, so two mutually comparator-equal incoming elements are both
kept). -/
theorem c5_addItem_commits_retained_incoming (s : StateArray D)
    (item : D ⊕ List D) (h : LawfulCmp s.compareTo) :
    (addItem s item).1.array =
      (setArray s
        (s.array.filter
          (fun e => !((normalizeItems item).any fun i => s.compareTo e i == 0))
          ++ normalizeItems item)).array := by
  rw [addItem_fst, setArray_array, setArray_array, cleanArrayFromItem_eq]
  cases hks : s.keepSorted
  · simp
  · simp only [if_true]
    rw [sortJs_sort_append h, sortJs_idem h]

/-- C5 witness: upserting the pair `[2, 2]` into `[1, 3]` with the numeric
comparator and `keepSorted = true` commits `sort ([1, 3] ++ [2, 2])`,
keeping both comparator-equal incoming copies. -/
theorem c5_witness :
    (addItem (useStateArray (fun a b : Int => a - b) [1, 3] true)
      (Sum.inr [2, 2])).1.array =
      (setArray (useStateArray (fun a b : Int => a - b) [1, 3] true)
        (([1, 3] : List Int).filter
          (fun e => !((normalizeItems (Sum.inr [2, 2])).any
            fun i => (e - i : Int) == 0))
          ++ normalizeItems (Sum.inr [2, 2]))).array ∧
    (addItem (useStateArray (fun a b : Int => a - b) [1, 3] true)
      (Sum.inr [2, 2])).1.array = [1, 2, 2, 3] :=
  ⟨c5_addItem_commits_retained_incoming
    (useStateArray (fun a b : Int => a - b) [1, 3] true) (Sum.inr [2, 2])
    lawfulCmp_sub, by decide⟩

/-- C6: for a lawful comparator, if `keepSorted` is true then immediately
after any mutating call (`setArray`, `addItem`, `removeItem`, `resetArray`)
the stored sequence is sorted non-decreasing: every adjacent pair satisfies
`compareTo a b ≤ 0`. -/
theorem c6_sorted_after_mutator (s : StateArray D) (m : Mutator D)
    (h : LawfulCmp s.compareTo) (hks : s.keepSorted = true) :
    List.Chain' (fun a b => s.compareTo a b ≤ 0) (applyMutator s m).array := by
  have key : ∀ l : List D,
      List.Chain' (fun a b => s.compareTo a b ≤ 0) (sortJs s.compareTo l) :=
    fun l => List.Pairwise.chain' (sortJs_sorted h l)
  cases m <;>
    simp only [applyMutator, addItem_fst, removeItem_fst, setArray_array,
      resetArray_array, hks, if_true] <;>
    exact key _

/-- C6 witness: after `addItem 2` on the sorted container constructed from
`[3, 1]`, the stored sequence is non-decreasing for the numeric
comparator. -/
theorem c6_witness :
    List.Chain' (fun a b : Int => a - b ≤ 0)
      (applyMutator (useStateArray (fun a b : Int => a - b) [3, 1] true)
        (Mutator.add (Sum.inl 2))).array :=
  c6_sorted_after_mutator (useStateArray (fun a b : Int => a - b) [3, 1] true)
    (Mutator.add (Sum.inl 2)) lawfulCmp_sub rfl

/-- C7: `areEquals items` is true exactly when every element of the current
sequence has a comparator-equal counterpart in `items` (the comparator
difference `array - items` is empty); in particular it is true whenever the
current sequence is a strict comparator-subset of `items`. -/
theorem c7_areEquals_iff (s : StateArray D) (items : List D) :
    areEquals s items = true ↔
      ∀ e ∈ s.array, ∃ i ∈ items, s.compareTo e i = 0 := by
  have hnil : ∀ l : List D, sortJs s.compareTo l = [] ↔ l = [] := by
    intro l
    constructor
    · intro he
      exact List.Perm.eq_nil ((sortJs_perm s.compareTo l).symm.trans (he ▸ List.Perm.refl _))
    · intro he
      rw [he]; rfl
  unfold areEquals
  rw [cleanArrayFromItem_eq]
  simp only [beq_iff_eq, List.length_eq_zero]
  have hsplit : (if s.keepSorted
      then sortJs s.compareTo (s.array.filter
        (fun e => !((normalizeItems (Sum.inr items)).any fun i => s.compareTo e i == 0)))
      else s.array.filter
        (fun e => !((normalizeItems (Sum.inr items)).any fun i => s.compareTo e i == 0)))
        = [] ↔
      s.array.filter
        (fun e => !((normalizeItems (Sum.inr items)).any fun i => s.compareTo e i == 0))
        = [] := by
    split
    · exact hnil _
    · exact Iff.rfl
  rw [hsplit, List.filter_eq_nil_iff]
  simp [normalizeItems]

/-- C10 counterexample: at the claim's own shape — current sequence
`[a, a, b]`, items `[a, b, b]`, `a` and `b` deeply unequal — taking `a = 0`,
`b = 1` under JavaScript number truthiness makes `areEqualsDeep` return
`false`, even though the lengths are equal and mutual deep-equality
membership holds: the `!!find` coercion drops the falsy matches `0`, so the
claim's "checks only equal length plus mutual membership" fails. -/
theorem c10_counterexample :
    areEqualsDeep (fun n : Int => !(n == 0))
      (useStateArray (fun a b : Int => a - b) [0, 0, 1] false) [0, 1, 1]
      = false ∧
    ([0, 0, 1] : List Int).length = ([0, 1, 1] : List Int).length ∧
    (∀ a ∈ ([0, 0, 1] : List Int), a ∈ ([0, 1, 1] : List Int)) ∧
    (∀ i ∈ ([0, 1, 1] : List Int), i ∈ ([0, 0, 1] : List Int)) :=
  ⟨rfl, rfl, by decide, by decide⟩

/-- C10 (amended): `areEqualsDeep` checks equal length plus mutual
deep-equality membership witnessed by a truthy element (the `!!find`
coercion makes falsy elements never witness membership); for truthy elements
the claimed multiplicity-blindness holds: with current sequence `[1, 1, 2]`
and items `[1, 2, 2]` (deeply unequal elements, equal lengths, different
duplicate multiplicities) it returns true although the two are not
multiset-equal. -/
theorem c10_areEqualsDeep_truthy_membership :
    (∀ (E : Type) (_inst : DecidableEq E) (truthy : E → Bool)
      (s : StateArray E) (items : List E),
      areEqualsDeep truthy s items = true ↔
        s.array.length = items.length ∧
        (∀ a ∈ s.array, a ∈ items ∧ truthy a = true) ∧
        (∀ i ∈ items, i ∈ s.array ∧ truthy i = true)) ∧
    areEqualsDeep (fun n : Int => !(n == 0))
      (useStateArray (fun a b : Int => a - b) [1, 1, 2] false) [1, 2, 2]
      = true ∧
    ¬ List.Perm ([1, 1, 2] : List Int) [1, 2, 2] := by
  refine ⟨?_, rfl, by decide⟩
  intro E _inst truthy s items
  unfold areEqualsDeep
  simp [List.filter_length_eq_length, truthyFind_beq_iff,
    truthyFind_beq_iff', and_assoc]

/-- C8: for a lawful comparator, calling `addItem` twice in succession with
the same element leaves the same stored sequence as a single call: the
second identical upsert is a no-op on the stored state, from any state. -/
theorem c8_addItem_idempotent (s : StateArray D) (x : D)
    (h : LawfulCmp s.compareTo) :
    (addItem (addItem s (Sum.inl x)).1 (Sum.inl x)).1.array =
      (addItem s (Sum.inl x)).1.array := by
  have hc : (addItem s (Sum.inl x)).1.compareTo = s.compareTo := by
    rw [addItem_fst, setArray_compareTo]
  have hk : (addItem s (Sum.inl x)).1.keepSorted = s.keepSorted := by
    rw [addItem_fst, setArray_keepSorted]
  have h1 : LawfulCmp (addItem s (Sum.inl x)).1.compareTo := by
    rw [hc]; exact h
  have hsingle : ([x].filter fun e => !([x].any fun i => s.compareTo e i == 0))
      = [] := by
    simp [h.zero_refl x]
  have hff : ((s.array.filter fun e => !([x].any fun i => s.compareTo e i == 0)).filter
        fun e => !([x].any fun i => s.compareTo e i == 0)) =
      s.array.filter fun e => !([x].any fun i => s.compareTo e i == 0) := by
    rw [List.filter_filter]
    exact List.filter_congr fun a _ => Bool.and_self _
  rw [addItem_array_norm _ _ h1, addItem_array_norm s _ h, hc, hk]
  simp only [normalizeItems]
  by_cases hks : s.keepSorted = true
  · rw [if_pos hks, if_pos hks, filter_sortJs h, sortJs_sort_append h,
      List.filter_append, hff, hsingle, List.append_nil]
  · rw [if_neg hks, if_neg hks, List.filter_append, hff, hsingle,
      List.append_nil]

/-- C8 witness: upserting `2` twice into the sorted container built from
`[1, 3]` stores the same sequence as upserting it once. -/
theorem c8_witness :
    (addItem (addItem (useStateArray (fun a b : Int => a - b) [1, 3] true)
        (Sum.inl 2)).1 (Sum.inl 2)).1.array =
      (addItem (useStateArray (fun a b : Int => a - b) [1, 3] true)
        (Sum.inl 2)).1.array :=
  c8_addItem_idempotent (useStateArray (fun a b : Int => a - b) [1, 3] true) 2
    lawfulCmp_sub

/-- C9 counterexample: on the stored sequence `[0, 0]` with the numeric
comparator and JavaScript number truthiness, `toSingleOccurrence` returns
`[0, 0]` and not the first-occurrence sequence `[0]`: the source's ternary
tests the truthiness of the found element, the kept `0` is falsy, so the
later duplicate is retained. -/
theorem c9_counterexample :
    toSingleOccurrence (fun n : Int => !(n == 0))
      (useStateArray (fun a b : Int => a - b) [0, 0] true) = [0, 0] ∧
    specKeepFirst (fun a b : Int => a - b == 0) [0, 0] = [0] ∧
    ([0, 0] : List Int) ≠ [0] := by
  refine ⟨rfl, ?_, by decide⟩
  rw [specKeepFirst_cons]
  simp [specKeepFirst_nil]

/-- C9 (amended): for a comparator whose zero case is symmetric,
`toSingleOccurrence` returns the stable first-occurrence-per-group sequence
provided every element of the current array is truthy; a falsy kept element
defeats the ternary's truthiness test and later comparator-equal duplicates
are retained.  The stored state is untouched either way — the operation only
reads `array` and produces a fresh list. -/
theorem c9_toSingleOccurrence_keeps_first (truthy : D → Bool)
    (s : StateArray D)
    (hsymm : ∀ a b, s.compareTo a b = 0 → s.compareTo b a = 0)
    (htruthy : ∀ a ∈ s.array, truthy a = true) :
    toSingleOccurrence truthy s =
      specKeepFirst (fun a b => s.compareTo a b == 0) s.array := by
  unfold toSingleOccurrence
  rw [toSingleOccurrence_foldl truthy s.compareTo hsymm s.array [] htruthy
    (fun a ha => absurd ha (List.not_mem_nil a))]
  simp

/-- C9 witness: on the all-truthy `[1, 2, 2, 3, 3, 3, 4]` with the numeric
comparator the result is the first-occurrence sequence, concretely
`[1, 2, 3, 4]`, while the stored array is still `[1, 2, 2, 3, 3, 3, 4]`. -/
theorem c9_witness :
    toSingleOccurrence (fun n : Int => !(n == 0))
      (useStateArray (fun a b : Int => a - b) [1, 2, 2, 3, 3, 3, 4] true) =
      specKeepFirst (fun a b : Int => a - b == 0) [1, 2, 2, 3, 3, 3, 4] ∧
    toSingleOccurrence (fun n : Int => !(n == 0))
      (useStateArray (fun a b : Int => a - b) [1, 2, 2, 3, 3, 3, 4] true) =
      [1, 2, 3, 4] ∧
    (useStateArray (fun a b : Int => a - b) [1, 2, 2, 3, 3, 3, 4] true).array =
      [1, 2, 2, 3, 3, 3, 4] :=
  ⟨c9_toSingleOccurrence_keeps_first (fun n : Int => !(n == 0))
      (useStateArray (fun a b : Int => a - b) [1, 2, 2, 3, 3, 3, 4] true)
      (fun a b h0 => by simp only [useStateArray] at h0 ⊢; omega)
      (by decide),
    by decide, rfl⟩

end Claims

end UseStateArray

